import Mathlib

/-!
# Verification of the fin-filings-rag retrieval core

Shallow embedding of the repository's retrieval pipeline:

* `src/ingestion/chunk.py`   — text chunking (`chunk_text`)
* `src/ingestion/ingest_texts.py` — index build (`ingest_filings`)
* `src/app/rag.py`           — index load, retrieval, confidence gate,
                               extractive synthesis (`RAGEngine`)
* `src/app/schemas.py`       — the declared pydantic `Citation` schema

Texts are modelled as `List Char` (for the character-level chunker) and as
`String` (for the engine level); floating point scores are modelled as `ℚ`.
Stateful generators are modelled with explicit fuel, I/O with explicit
artifact records, and the two third-party library calls (scikit-learn's
TF-IDF fit and cosine similarity) as function parameters, since their code is
not part of this repository.
-/

namespace FinFilingsRag

/-- Python's `\s` character class / `str.strip` whitespace set (ASCII part,
which is what the corpus and queries use): space, tab, newline, carriage
return, vertical tab, form feed. -/
def pyIsSpace (c : Char) : Bool :=
  c = ' ' || c = '\t' || c = '\n' || c = '\r' || c = '\x0b' || c = '\x0c'

/-- `l` with leading Python-whitespace removed (left part of `str.strip`). -/
def lstrip (l : List Char) : List Char := l.dropWhile pyIsSpace

/-- `l` with trailing Python-whitespace removed (right part of `str.strip`). -/
def rstrip (l : List Char) : List Char := (l.reverse.dropWhile pyIsSpace).reverse

/-- Python `str.strip()`. -/
def pyStrip (l : List Char) : List Char := rstrip (lstrip l)

/-- One pass of `re.sub(r"\s+", " ", ·)`: every maximal run of whitespace
becomes a single `' '`.  The flag records whether the previously emitted
character was the collapsed space of a still-open whitespace run. -/
def collapseAux : Bool → List Char → List Char
  | _, [] => []
  | prevSpace, c :: rest =>
    if pyIsSpace c then
      if prevSpace then collapseAux true rest
      else ' ' :: collapseAux true rest
    else c :: collapseAux false rest

/-- `re.sub(r"\s+", " ", text.strip())` — the normalization performed at the
top of `chunk_text` (src/ingestion/chunk.py line 12). -/
def normalizeText (l : List Char) : List Char := collapseAux false (pyStrip l)

/-- A regex "pattern" as used by `chunk_text`: a fixed-length sequence of
character classes.  The three patterns searched for are `\.\s`, `\n`, `;\s`. -/
def Pat := List (Char → Bool)

def patPeriodSpace : Pat := [fun c => c = '.', pyIsSpace]
def patNewline : Pat := [fun c => c = '\n']
def patSemicolonSpace : Pat := [fun c => c = ';', pyIsSpace]

/-- Does `pat` match at the head of `l`? -/
def matchesHere : Pat → List Char → Bool
  | [], _ => true
  | _ :: _, [] => false
  | p :: ps, c :: cs => p c && matchesHere ps cs

/-- `re.finditer` scan: left-to-right, non-overlapping; returns the end
position of the last match (`matches[-1].end()`), if any.  `i` is the
absolute position of the head of `l`; `best` the best end seen so far. -/
def scanLastEnd (pat : Pat) : Nat → List Char → Nat → Option Nat → Option Nat
  | 0, _, _, best => best
  | _ + 1, [], _, best => best
  | fuel + 1, c :: rest, i, best =>
    if matchesHere pat (c :: rest) then
      scanLastEnd pat fuel (rest.drop (pat.length - 1)) (i + pat.length)
        (some (i + pat.length))
    else
      scanLastEnd pat fuel rest (i + 1) best

/-- End position of the last match of `pat` in `l`, if any. -/
def lastMatchEnd (pat : Pat) (l : List Char) : Option Nat :=
  scanLastEnd pat l.length l 0 none

/-- The `for pattern in [r"\.\s", r"\n", r";\s"]: ... break` loop of
`chunk_text` (lines 28–33): first pattern with any match wins, and the end of
its last match is used. -/
def tryPatterns (region : List Char) : Option Nat :=
  match lastMatchEnd patPeriodSpace region with
  | some e => some e
  | none =>
    match lastMatchEnd patNewline region with
    | some e => some e
    | none => lastMatchEnd patSemicolonSpace region

structure ChunkParams where
  chunk_size : Nat
  overlap : Nat
  min_chunk_size : Nat

/-- Python slice `t[a:b]`. -/
def slice (t : List Char) (a b : Nat) : List Char := (t.take b).drop a

/-- One iteration of the `while start < len(text)` loop of `chunk_text`
(lines 20–41) on normalized text `t`: returns the chunk yielded this
iteration (if any) and the next value of `start`.

* `end = start + chunk_size`; if `end < len(text)`, search the region
  `text[max(start+chunk_size-100, start) : min(start+chunk_size+50, len(text))]`
  for the last sentence-boundary match and move `end` there;
* yield `text[start:end].strip()` if it is at least `min_chunk_size` long;
* `start = end - overlap`, and `if start <= 0: start = end`.

`max (start + p.chunk_size - 100) start` uses truncated `Nat` subtraction,
which agrees with Python's `max` here because whenever the Python value
`start + chunk_size - 100` is negative or below `start`, both sides reduce to
`start`. -/
def chunkEnd (t : List Char) (p : ChunkParams) (start : Nat) : Nat :=
  if start + p.chunk_size < t.length then
    let searchStart := max (start + p.chunk_size - 100) start
    let searchEnd := min (start + p.chunk_size + 50) t.length
    match tryPatterns (slice t searchStart searchEnd) with
    | some me => searchStart + me
    | none => start + p.chunk_size
  else start + p.chunk_size

def chunkStep (t : List Char) (p : ChunkParams) (start : Nat) :
    Option (List Char) × Nat :=
  let e := chunkEnd t p start
  let chunk := pyStrip (slice t start e)
  let yielded := if p.min_chunk_size ≤ chunk.length then some chunk else none
  -- `start = end - overlap; if start <= 0: start = end`
  let start' := if e ≤ p.overlap then e else e - p.overlap
  (yielded, start')

/-- The chunking loop, with explicit fuel.  Returns the chunks yielded so far
and whether the loop reached its exit condition (`start ≥ len(text)`) within
`fuel` iterations; `false` in the second component means the Python generator
would still be running. -/
def chunkLoop (t : List Char) (p : ChunkParams) :
    Nat → Nat → List (List Char) × Bool
  | 0, start => ([], decide (t.length ≤ start))
  | fuel + 1, start =>
    if start < t.length then
      let step := chunkStep t p start
      let rest := chunkLoop t p fuel step.2
      (match step.1 with
       | some c => c :: rest.1
       | none => rest.1, rest.2)
    else ([], true)

/-- `chunk_text(text, chunk_size, overlap, min_chunk_size)`
(src/ingestion/chunk.py lines 5–41), as the finite list of chunks produced
within `fuel` loop iterations plus a completion flag. -/
def chunk_text (text : List Char) (p : ChunkParams) (fuel : Nat) :
    List (List Char) × Bool :=
  let t := normalizeText text
  if t.length ≤ p.chunk_size then
    (if p.min_chunk_size ≤ t.length then [t] else [], true)
  else
    chunkLoop t p fuel 0

/-- Default parameters of `chunk_text`. -/
def defaultParams : ChunkParams := ⟨512, 64, 50⟩

/-! ## String-level Python helpers used by `rag.py` -/

/-- `str.strip()` on `String`s. -/
def pyStripStr (s : String) : String := (pyStrip s.toList).asString

/-- `str.split(sep)` with a one-character separator `sep` (the only form the
code uses): cut at every occurrence of the separator, keeping empty pieces. -/
def splitBy (p : Char → Bool) (l : List Char) : List (List Char) :=
  List.foldr
    (fun c acc =>
      if p c then [] :: acc
      else
        match acc with
        | [] => [[c]]
        | w :: ws => (c :: w) :: ws)
    [[]] l

/-- `sep.join(xs)`. -/
def joinWith (sep : List Char) : List (List Char) → List Char
  | [] => []
  | [x] => x
  | x :: xs => x ++ sep ++ joinWith sep xs

/-- `sep.join(xs)` on `String`s. -/
def joinStr (sep : String) (xs : List String) : String :=
  (joinWith sep.toList (xs.map String.toList)).asString

/-- `str.lower()` (the corpus and queries are ASCII, where `Char.toLower`
agrees with Python). -/
def pyLower (s : String) : String := (s.toList.map Char.toLower).asString

/-- `str.split()` with no argument: split on whitespace runs, dropping empty
pieces. -/
def pySplit (s : String) : List String :=
  ((splitBy pyIsSpace s.toList).filter (fun w => w ≠ [])).map List.asString

/-- `len(set(a) & set(b))`: the number of distinct elements of `a` that also
occur in `b`. -/
def interCard (a b : List String) : Nat :=
  (a.dedup.filter (fun w => b.contains w)).length

/-- Python `round(x, 4)` on scores.  Floats are modelled as rationals; the
half-even tie-break of binary-float `round` is immaterial to every claim, so
nearest-integer rounding is used. -/
def pyRound4 (x : ℚ) : ℚ := (round (x * 10000) : ℤ) / 10000

/-- Python `f"{x:.2f}"` for the non-negative confidences that reach it
(two fractional digits, zero-padded). -/
def fmt2 (x : ℚ) : String :=
  let n := (round (x * 100) : ℤ)
  let frac := n % 100
  toString (n / 100) ++ "." ++
    (if frac < 10 then "0" ++ toString frac else toString frac)

/-! ## `rag.py`: engine state, retrieval, confidence gate, synthesis

The engine's loaded index state is a document list plus a similarity oracle
`sims`: `sims q` is the row vector produced by
`cosine_similarity(vectorizer.transform([q]), tfidf_matrix).flatten()`
(rag.py lines 83–84), one score per indexed chunk.  Both calls are
scikit-learn library code, not code of this repository, so they enter the
embedding as a parameter of the engine state. -/

def CONFIDENCE_THRESHOLD : ℚ := 15 / 100
def TOP_K : Nat := 3

/-- An entry of `self.documents` as built by `_load_index` (rag.py 52–58). -/
structure DocRec where
  chunk_id : String
  text : String
  source_file : String
deriving DecidableEq, Repr

structure Engine where
  documents : List DocRec
  sims : String → List ℚ

/-- Index comparison used by `np.argsort(similarities)`: ascending by score.
(np.argsort's tie order among equal scores is unspecified; any sort of the
index list by score models it, and no claim depends on tie order.) -/
def simLE (xs : List ℚ) : Nat → Nat → Prop :=
  fun i j => xs.getD i 0 ≤ xs.getD j 0

instance (xs : List ℚ) : DecidableRel (simLE xs) :=
  fun i j => (inferInstance : Decidable (xs.getD i 0 ≤ xs.getD j 0))

instance (xs : List ℚ) : IsTotal Nat (simLE xs) := ⟨fun _ _ => le_total _ _⟩

instance (xs : List ℚ) : IsTrans Nat (simLE xs) := ⟨fun _ _ _ h h' => le_trans h h'⟩

/-- `np.argsort(similarities)`: indices of `xs` sorted ascending by value. -/
def argsortAsc (xs : List ℚ) : List Nat :=
  List.insertionSort (simLE xs) (List.range xs.length)

/-- Python slice `l[-k:]` for a list of indices (`[-0:]` is the whole list,
mirroring Python's semantics of a zero negative bound). -/
def lastK (l : List Nat) (k : Nat) : List Nat :=
  if k = 0 then l else l.drop (l.length - k)

/-- `np.argsort(similarities)[-top_k:][::-1]` (rag.py line 85). -/
def topIndices (xs : List ℚ) (k : Nat) : List Nat :=
  (lastK (argsortAsc xs) k).reverse

/-- Body of the result loop of `retrieve` (rag.py 88–91) at one index:
keep `(documents[idx], score)` when `score > 0`.  The `Option` lookups always
succeed for the indices `retrieve` produces, matching Python's plain
indexing. -/
def retrieveHit (docs : List DocRec) (sims : List ℚ) (idx : Nat) :
    Option (DocRec × ℚ) :=
  match docs[idx]?, sims[idx]? with
  | some d, some s => if 0 < s then some (d, s) else none
  | _, _ => none

/-- `RAGEngine.retrieve(query, top_k)` (rag.py lines 81–92). -/
def retrieve (e : Engine) (q : String) (top_k : Nat) : List (DocRec × ℚ) :=
  let similarities := e.sims q
  (topIndices similarities top_k).filterMap
    (retrieveHit e.documents similarities)

/-- Top raw score of a retrieval result list (`results[0][1]` when
nonempty). -/
def topScore (results : List (DocRec × ℚ)) : ℚ :=
  match results with
  | [] => 0
  | (_, s) :: _ => s

/-! ## `schemas.py`: the declared `Citation` model and pydantic validation -/

/-- The `Citation` pydantic model as declared in src/app/schemas.py lines
11–16: `source : str` (required), `chunk_id : int` (required), `text : str`,
`score : float` constrained to `0 ≤ score ≤ 1`. -/
structure SchemaCitation where
  source : String
  chunk_id : Int
  text : String
  score : ℚ
deriving DecidableEq, Repr

/-- Digit-string value, `none` if empty or any non-digit. -/
def digitsVal? (l : List Char) : Option Nat :=
  if l.isEmpty then none
  else
    l.foldl
      (fun acc c =>
        acc.bind fun n => if c.isDigit then some (n * 10 + (c.toNat - 48)) else none)
      (some 0)

/-- Python `int(s)` on a string: optional surrounding whitespace, optional
sign, at least one digit — the string-to-int coercion pydantic applies to an
`int` field. -/
def pyIntOfString? (s : String) : Option Int :=
  match pyStrip s.toList with
  | '+' :: rest => (digitsVal? rest).map Int.ofNat
  | '-' :: rest => (digitsVal? rest).map (fun n => -(n : Int))
  | t => (digitsVal? t).map Int.ofNat

/-- Pydantic validation of `schemas.Citation` against a supplied set of
field values: `source` absent fails as a missing required field (extra keyword
arguments such as `source_file` are ignored and contribute nothing);
`chunk_id` arrives as a string and must coerce to an integer; `score` must lie
in `[0, 1]` (`ge=0.0, le=1.0`). -/
def validateCitationFields (source : Option String) (chunk_id : String)
    (text : String) (score : ℚ) : Except String SchemaCitation :=
  match source with
  | none => Except.error "source: Field required"
  | some src =>
    match pyIntOfString? chunk_id with
    | none => Except.error "chunk_id: value is not a valid integer"
    | some n =>
      if 0 ≤ score ∧ score ≤ 1 then Except.ok ⟨src, n, text, score⟩
      else Except.error "score: value out of range"

/-- The keyword arguments `rag.py` lines 132–137 passes to `Citation(...)`:
`chunk_id` (a string of the form `source_file ++ "_" ++ i`), the excerpted
`text`, the rounded `score`, and `source_file` — note there is no `source`
keyword. -/
structure RagCitation where
  chunk_id : String
  text : String
  score : ℚ
  source_file : String
deriving DecidableEq, Repr

/-- `doc["text"][:500] + ("..." if len(doc["text"]) > 500 else "")`
(rag.py line 134). -/
def excerpt (t : String) : String :=
  t.take 500 ++ (if 500 < t.length then "..." else "")

/-- The `for doc, score in results: citations.append(Citation(...))` loop of
`synthesize` (rag.py 130–137): each iteration builds the keyword arguments and
constructs a `schemas.Citation` from them; pydantic validation failure raises,
aborting the loop at the first bad element. -/
def buildCitations : List (DocRec × ℚ) → Except String (List SchemaCitation)
  | [] => Except.ok []
  | (d, s) :: rest => do
    let c ← validateCitationFields none d.chunk_id (excerpt d.text) (pyRound4 s)
    let cs ← buildCitations rest
    pure (c :: cs)

/-! ## `_generate_answer` (rag.py lines 149–175) -/

/-- `combined.replace("\n", " ").split(".")` where
`combined = " ".join(contexts)` (rag.py 151–152); replacing the
one-character pattern `"\n"` is a character-wise substitution. -/
def pySentences (contexts : List String) : List String :=
  (splitBy (fun c => c = '.')
    ((joinWith [' '] (contexts.map String.toList)).map
      (fun c => if c = '\n' then ' ' else c))).map List.asString

/-- `len(query_terms & sent_terms)` for one sentence (rag.py 161–162). -/
def segOverlap (queryTerms : List String) (sent : String) : Nat :=
  interCard (pySplit (pyLower sent)) queryTerms

/-- The sentence filter loop (rag.py 157–164): strip, drop segments shorter
than 20 characters, keep `(sent, overlap)` when the overlap is positive. -/
def relevantSegments (query : String) (contexts : List String) :
    List (String × Nat) :=
  let queryTerms := pySplit (pyLower query)
  (pySentences contexts).filterMap fun sent0 =>
    let sent := pyStripStr sent0
    if sent.length < 20 then none
    else
      let overlap := segOverlap queryTerms sent
      if 0 < overlap then some (sent, overlap) else none

/-- Sort key of `relevant_sentences.sort(key=lambda x: x[1], reverse=True)`:
descending by overlap count; Python's sort is stable, as is insertion sort
with this reflexive relation. -/
def overlapGE (a b : String × Nat) : Prop := b.2 ≤ a.2

instance : DecidableRel overlapGE :=
  fun a b => (inferInstance : Decidable (b.2 ≤ a.2))

/-- `top_sentences` (rag.py 166–167): stable-descending sort, take 3, keep
the sentence components. -/
def chosenSegments (query : String) (contexts : List String) : List String :=
  ((List.insertionSort overlapGE (relevantSegments query contexts)).take 3).map
    Prod.fst

/-- A function is a possible CPython `list(set(·))` enumeration: its output
lists exactly the distinct elements of its input, each once, in some order
(CPython's actual order depends on randomized string hashes). -/
def pySetValid (f : List String → List String) : Prop :=
  ∀ l, (f l).Nodup ∧ ∀ x, x ∈ f l ↔ x ∈ l

/-- `RAGEngine._generate_answer(query, contexts, citations)`
(rag.py lines 149–175), parametric in the `list(set(...))` enumeration
`setEnum` used for the source list (rag.py line 171).  The `citations`
argument is typed by the fields the function reads (`c.source_file`). -/
def generate_answer (setEnum : List String → List String) (query : String)
    (contexts : List String) (citations : List RagCitation) : String :=
  match chosenSegments query contexts with
  | [] => "Based on the filing: " ++ (contexts.headD "").take 300 ++ "..."
  | tops =>
    joinStr ". " tops ++ "." ++ " [Sources: " ++
      joinStr ", " (setEnum (citations.map RagCitation.source_file)) ++ "]"

/-! ## `synthesize` (rag.py lines 105–147) -/

/-- The dict returned by `synthesize`; `message` is an optional key. -/
structure SynthResult where
  answer : String
  confidence : ℚ
  citations : List SchemaCitation
  abstained : Bool
  message : Option String
deriving DecidableEq, Repr

/-- `RAGEngine.synthesize(query)` (rag.py lines 105–147).  `Except.error`
models an uncaught Python exception (here: pydantic's `ValidationError` from
`Citation(...)`).  On the answer path the `citations` objects passed to
`_generate_answer` are modelled by the keyword-argument records, since the
construction of the validated objects never succeeds (see the theorems
below). -/
def synthesize (setEnum : List String → List String) (e : Engine)
    (q : String) : Except String SynthResult :=
  let results := retrieve e q TOP_K
  match results with
  | [] =>
    Except.ok ⟨"", 0, [], true, some "No relevant information found."⟩
  | (_, top_score) :: _ =>
    let confidence := min (top_score * 2) 1
    if top_score < CONFIDENCE_THRESHOLD then
      Except.ok ⟨"", confidence, [], true,
        some ("Confidence too low (" ++ fmt2 confidence ++ ").")⟩
    else
      match buildCitations results with
      | Except.error msg => Except.error msg
      | Except.ok citations =>
        let contexts := results.map fun ds => ds.1.text
        let kwargs := results.map fun ds =>
          RagCitation.mk ds.1.chunk_id (excerpt ds.1.text) (pyRound4 ds.2)
            ds.1.source_file
        let answer := generate_answer setEnum q contexts kwargs
        Except.ok ⟨answer, pyRound4 confidence, citations, false, none⟩

/-- "synthesize abstains on query `q`": it returns (rather than raises) a
response with `abstained = True`. -/
def abstains (setEnum : List String → List String) (e : Engine) (q : String) :
    Prop :=
  ∃ r, synthesize setEnum e q = Except.ok r ∧ r.abstained = true

/-! ## `ingest_texts.py`: index build, and `_load_index`: index load -/

/-- A chunk record of `chunks.json` (ingest_texts.py lines 36–41). -/
structure ChunkRec where
  source : String
  chunk_id : Nat
  text : String
deriving DecidableEq, Repr

/-- The three persisted index artifacts (chunks.json, vectorizer.json,
tfidf_matrix.npy). -/
structure Artifacts where
  chunks : List ChunkRec
  vocabulary : List (String × Nat)
  matrix : List (List ℚ)
deriving DecidableEq, Repr

/-- The stats dict returned by `ingest_filings`; `vocabulary_size` is only a
key of the success dict. -/
structure IngestStats where
  status : String
  chunks : Nat
  files : Nat
  vocabulary_size : Option Nat
deriving DecidableEq, Repr

/-- Chunks of one corpus document, tagged with source filename and a 0-based
sequential chunk id (ingest_texts.py lines 36–41). -/
def chunksOfDoc (name text : String) (cs ov fuel : Nat) : List ChunkRec :=
  ((chunk_text text.toList ⟨cs, ov, 50⟩ fuel).1.enum).map fun ic =>
    ⟨name, ic.1, ic.2.asString⟩

/-- `ingest_filings(filings_dir, index_dir, chunk_size, overlap)`
(ingest_texts.py lines 16–82).  The corpus stands for the `*.txt` files of the
filings directory; `fit` is scikit-learn's `TfidfVectorizer.fit_transform`
(library code): from the chunk texts it produces the fitted vocabulary and
the row-per-chunk weight matrix.  The second component of the result is the
set of artifacts written to disk — `none` means nothing was written. -/
def ingest_filings (fit : List String → List (String × Nat) × List (List ℚ))
    (fuel : Nat) (corpus : List (String × String)) (cs ov : Nat) :
    IngestStats × Option Artifacts :=
  let chunks := (corpus.map fun doc => chunksOfDoc doc.1 doc.2 cs ov fuel).flatten
  if chunks.isEmpty then (⟨"error", 0, 0, none⟩, none)
  else
    let texts := chunks.map ChunkRec.text
    let fitted := fit texts
    (⟨"success", chunks.length, corpus.length, some fitted.1.length⟩,
      some ⟨chunks, fitted.1, fitted.2⟩)

/-- Presence of the three artifact files at load time (`chunks.json`,
`tfidf_matrix.npy`, `vectorizer.json`); `none` = file absent. -/
structure IndexStore where
  chunks : Option (List ChunkRec)
  matrix : Option (List (List ℚ))
  vocabulary : Option (List (String × Nat))
deriving DecidableEq, Repr

/-- The on-disk state after a successful build wrote all three artifacts. -/
def storeOfArtifacts (a : Artifacts) : IndexStore :=
  ⟨some a.chunks, some a.matrix, some a.vocabulary⟩

/-- `RAGEngine` state after `_load_index`: `documents`, `tfidf_matrix` and
the vectorizer's frozen `vocabulary` start as `None` and are set on success,
together with `_ready`. -/
structure LoadedEngine where
  documents : Option (List DocRec)
  tfidf_matrix : Option (List (List ℚ))
  vocabulary : Option (List (String × Nat))
  ready : Bool
deriving DecidableEq, Repr

/-- Conversion of a `chunks.json` record to a `self.documents` entry
(rag.py lines 53–58). -/
def docOfChunk (c : ChunkRec) : DocRec :=
  ⟨c.source ++ "_" ++ toString c.chunk_id, c.text, c.source⟩

/-- `RAGEngine._load_index` (rag.py lines 38–75): raise `FileNotFoundError`
if any artifact file is missing; otherwise load documents in `chunks.json`
order, the matrix, and the frozen vocabulary (the vectorizer is re-created
from the stored vocabulary, never re-fitted on the chunk texts). -/
def load_index (st : IndexStore) : Except String LoadedEngine :=
  match st.chunks, st.matrix, st.vocabulary with
  | some chunks, some matrix, some vocab =>
    Except.ok ⟨some (chunks.map docOfChunk), some matrix, some vocab, true⟩
  | _, _, _ => Except.error "Index not found. Run ingestion first."

/-- `RAGEngine.is_ready` (rag.py lines 77–79). -/
def is_ready (en : LoadedEngine) : Bool :=
  en.ready && en.documents.isSome

/-! ## Concrete instances used as inputs of witnesses and counterexamples -/

/-- 100 characters with no sentence boundary: input on which the chunking
loop cycles (see the termination theorems). -/
def tBad : List Char := List.replicate 100 'a'

/-- `chunk_size=10, overlap=50, min_chunk_size=50`. -/
def pBad : ChunkParams := ⟨10, 50, 50⟩

/-- The set of `start` values the loop visits on `tBad`/`pBad`. -/
def badStarts : List Nat := [0, 10, 20, 30, 40, 50]

/-- The successor of each visited `start` value on `tBad`/`pBad`. -/
def nextBad (s : Nat) : Nat := if s = 50 then 10 else s + 10

/-- A 59-character one-chunk document text. -/
def textW : String := "Revenue increased due to strong demand across all segments."

/-- A document record as it appears in a loaded engine. -/
def docA : DocRec := ⟨"filing.txt_0", textW, "filing.txt"⟩

def docB : DocRec := ⟨"filing.txt_1", "Risk factors include currency fluctuation and rates.", "filing.txt"⟩

def docC : DocRec := ⟨"other.txt_0", "Liquidity remained strong during the period.", "other.txt"⟩

/-- Engine whose top similarity passes the confidence gate. -/
def eAns : Engine := ⟨[docA], fun _ => [1/2]⟩

/-- Engine whose top similarity is positive but below the 0.15 threshold. -/
def eLow : Engine := ⟨[docA], fun _ => [1/10]⟩

/-- Engine with an empty index. -/
def eEmpty : Engine := ⟨[], fun _ => []⟩

/-- Three-document engine used for the retrieval witness. -/
def eW : Engine := ⟨[docA, docB, docC], fun _ => [1/2, 0, 1/4]⟩

/-- One concrete valid `list(set(·))` enumeration: Mathlib's `dedup`, which
keeps the last occurrence of each element. -/
def pySetEnumDedup : List String → List String := fun l => l.dedup

/-- The abstention record `synthesize` returns on `eLow`. -/
def rLow : SynthResult :=
  ⟨"", min ((1/10 : ℚ) * 2) 1, [], true,
    some ("Confidence too low (" ++ fmt2 (min ((1/10 : ℚ) * 2) 1) ++ ").")⟩

/-- The abstention record `synthesize` returns on an empty retrieval. -/
def rEmpty : SynthResult :=
  ⟨"", 0, [], true, some "No relevant information found."⟩

/-- Query for the synthesizer examples. -/
def q9 : String := "alpha beta margin"

/-- Retrieved context texts for the synthesizer examples: two segments, both
at least 20 characters, both overlapping the query. -/
def ctx9 : List String :=
  ["the alpha margin grew strongly this year. the beta margin shrank noticeably this year."]

/-- Citation records whose source files repeat (`x.txt`, `y.txt`, `x.txt`). -/
def cits9 : List RagCitation :=
  [⟨"x.txt_0", "tx", 1/2, "x.txt"⟩, ⟨"y.txt_0", "ty", 2/5, "y.txt"⟩,
    ⟨"x.txt_1", "tz", 3/10, "x.txt"⟩]

/-- Duplicate removal keeping the first occurrence of each element;
`seen` accumulates the elements already emitted. -/
def firstDedupAux : List String → List String → List String
  | _, [] => []
  | seen, x :: xs =>
    if x ∈ seen then firstDedupAux seen xs
    else x :: firstDedupAux (x :: seen) xs

/-- Duplicate removal keeping the first occurrence of each element. -/
def firstDedup (l : List String) : List String := firstDedupAux [] l

/-- Modelled from the spec, for comparison only: the answer shape claim C9
asserts — chosen segments joined with ". ", a trailing period, and the
distinct source ids in order of their FIRST appearance among the retrieval
results. -/
def claimedAnswerC9 (q : String) (ctx : List String)
    (cits : List RagCitation) : String :=
  joinStr ". " (chosenSegments q ctx) ++ "." ++ " [Sources: " ++
    joinStr ", " (firstDedup (cits.map RagCitation.source_file)) ++ "]"

/-- The conclusion of the amended claim C9: the answer is the chosen segments
joined with ". " plus a trailing period, followed by a bracketed list holding
each distinct retrieved source id exactly once (in the set-enumeration
order, which is not guaranteed to be first-appearance order). -/
def AmendedC9 (setEnum : List String → List String) (q : String)
    (ctx : List String) (cits : List RagCitation) : Prop :=
  generate_answer setEnum q ctx cits =
    joinStr ". " (chosenSegments q ctx) ++ "." ++ " [Sources: " ++
      joinStr ", " (setEnum (cits.map RagCitation.source_file)) ++ "]"
  ∧ (setEnum (cits.map RagCitation.source_file)).Nodup
  ∧ ∀ x, x ∈ setEnum (cits.map RagCitation.source_file) ↔
      ∃ c ∈ cits, c.source_file = x

/-- A simple concrete TF-IDF fit stand-in: one-term vocabulary, one weight
row per text. -/
def fitW : List String → List (String × Nat) × List (List ℚ) :=
  fun texts => ([("revenue", 0)], texts.map fun _ => [(1 : ℚ)])

/-- One-document corpus whose single document yields exactly one chunk. -/
def corpusW : List (String × String) := [("a.txt", textW)]

/-- Store with every artifact missing. -/
def emptyStore : IndexStore := ⟨none, none, none⟩

/-- Concrete complete artifacts. -/
def artsW : Artifacts := ⟨[⟨"a.txt", 0, textW⟩], [("revenue", 0)], [[1]]⟩

/-- Store with all three artifacts present. -/
def fullStore : IndexStore := storeOfArtifacts artsW

/-- The conclusion of claim C2 about one `retrieve` call: scores sorted
non-increasingly, at most `top_k` results, all scores strictly positive,
fewer than `top_k` results when fewer chunks have positive similarity, and
no results when no chunk has positive similarity. -/
def RetrieveSpec (e : Engine) (q : String) (top_k : Nat) : Prop :=
  List.Pairwise (fun p p' : DocRec × ℚ => p'.2 ≤ p.2) (retrieve e q top_k)
  ∧ (retrieve e q top_k).length ≤ top_k
  ∧ (∀ p ∈ retrieve e q top_k, 0 < p.2)
  ∧ ((e.sims q).countP (fun s => decide (0 < s)) < top_k →
      (retrieve e q top_k).length < top_k)
  ∧ ((e.sims q).countP (fun s => decide (0 < s)) = 0 →
      retrieve e q top_k = [])

/-- The conclusion of claim C5 for a successfully built artifact set `arts`
(built with vectorizer `fit`): loading the persisted artifacts yields a ready
engine whose document list is the build-time chunk list in the same order,
whose vocabulary is exactly the build-time fitted vocabulary (passed through,
not re-derived from the chunk texts), and whose matrix is the build-time
matrix, so row `i` corresponds to chunk `i`. -/
def RoundtripOk (fit : List String → List (String × Nat) × List (List ℚ))
    (arts : Artifacts) : Prop :=
  load_index (storeOfArtifacts arts) =
    Except.ok ⟨some (arts.chunks.map docOfChunk), some arts.matrix,
      some arts.vocabulary, true⟩
  ∧ arts.vocabulary = (fit (arts.chunks.map ChunkRec.text)).1
  ∧ arts.matrix = (fit (arts.chunks.map ChunkRec.text)).2
  ∧ ∀ i : Nat, (arts.chunks.map docOfChunk)[i]? = (arts.chunks[i]?).map docOfChunk

/-- The per-chunk invariant of claim C10 for parameters `p`: length between
`min_chunk_size` and `chunk_size + 50`, no leading or trailing whitespace, no
newline, every whitespace character a single space with no two adjacent. -/
def ChunkGood (p : ChunkParams) (c : List Char) : Prop :=
  p.min_chunk_size ≤ c.length
  ∧ c.length ≤ p.chunk_size + 50
  ∧ (∀ ch, c.head? = some ch → pyIsSpace ch = false)
  ∧ (∀ ch, c.getLast? = some ch → pyIsSpace ch = false)
  ∧ '\n' ∉ c
  ∧ (∀ ch ∈ c, pyIsSpace ch = true → ch = ' ')
  ∧ List.Chain' (fun a b => ¬(pyIsSpace a = true ∧ pyIsSpace b = true)) c

/-! ## Lemmas about stripping and whitespace normalization -/

theorem head_dropWhile_false {α : Type} (p : α → Bool) (l : List α) (c : α)
    (h : (l.dropWhile p).head? = some c) : p c = false := by
  induction l with
  | nil => simp [List.dropWhile] at h
  | cons a l ih =>
    rw [List.dropWhile_cons] at h
    by_cases hp : p a = true
    · rw [if_pos hp] at h
      exact ih h
    · rw [if_neg hp] at h
      simp only [List.head?_cons, Option.some.injEq] at h
      subst h
      exact Bool.not_eq_true _ ▸ hp

theorem lstrip_head (l : List Char) (c : Char)
    (h : (lstrip l).head? = some c) : pyIsSpace c = false :=
  head_dropWhile_false pyIsSpace l c h

theorem rstrip_getLast (l : List Char) (c : Char)
    (h : (rstrip l).getLast? = some c) : pyIsSpace c = false := by
  rw [rstrip, List.getLast?_reverse] at h
  exact head_dropWhile_false pyIsSpace l.reverse c h

theorem rstrip_prefixOf (l : List Char) : rstrip l <+: l := by
  have h := List.dropWhile_suffix (l := l.reverse) pyIsSpace
  have h2 := List.reverse_prefix.mpr h
  rwa [List.reverse_reverse] at h2

theorem prefix_head {α : Type} {l₁ l₂ : List α} {c : α} (h : l₁ <+: l₂)
    (hc : l₁.head? = some c) : l₂.head? = some c := by
  obtain ⟨t, rfl⟩ := h
  cases l₁ with
  | nil => simp at hc
  | cons a l => simpa using hc

theorem pyStrip_head (l : List Char) (c : Char)
    (h : (pyStrip l).head? = some c) : pyIsSpace c = false :=
  lstrip_head l c (prefix_head (rstrip_prefixOf (lstrip l)) h)

theorem pyStrip_getLast (l : List Char) (c : Char)
    (h : (pyStrip l).getLast? = some c) : pyIsSpace c = false :=
  rstrip_getLast (lstrip l) c h

theorem pyStrip_infixOf (l : List Char) : pyStrip l <:+: l :=
  ((rstrip_prefixOf (lstrip l)).isInfix).trans
    ((List.dropWhile_suffix pyIsSpace).isInfix)

theorem pyStrip_length_le (l : List Char) : (pyStrip l).length ≤ l.length :=
  (pyStrip_infixOf l).sublist.length_le

theorem collapseAux_cons_true (a : Char) (l : List Char) :
    collapseAux true (a :: l) =
      if pyIsSpace a = true then collapseAux true l
      else a :: collapseAux false l := by
  simp [collapseAux]

theorem collapseAux_cons_false (a : Char) (l : List Char) :
    collapseAux false (a :: l) =
      if pyIsSpace a = true then ' ' :: collapseAux true l
      else a :: collapseAux false l := by
  simp [collapseAux]

theorem collapseAux_mem_space (l : List Char) :
    ∀ (b : Bool) (c : Char), c ∈ collapseAux b l → pyIsSpace c = true →
      c = ' ' := by
  induction l with
  | nil => intro b c hc; simp [collapseAux] at hc
  | cons a l ih =>
    intro b c hc hsp
    by_cases ha : pyIsSpace a = true
    · cases b with
      | true =>
        simp only [collapseAux, ha, if_true] at hc
        exact ih true c hc hsp
      | false =>
        simp only [collapseAux, ha, if_true, if_false, Bool.false_eq_true,
          List.mem_cons] at hc
        rcases hc with rfl | hc
        · rfl
        · exact ih true c hc hsp
    · simp only [collapseAux, ha, if_false, Bool.false_eq_true,
        List.mem_cons] at hc
      rcases hc with rfl | hc
      · exact absurd hsp (by simp [ha])
      · exact ih false c hc hsp

theorem collapseAux_true_head (l : List Char) :
    ∀ c : Char, (collapseAux true l).head? = some c → pyIsSpace c = false := by
  induction l with
  | nil => intro c hc; simp [collapseAux] at hc
  | cons a l ih =>
    intro c hc
    by_cases ha : pyIsSpace a = true
    · simp only [collapseAux, ha, if_true] at hc
      exact ih c hc
    · simp only [collapseAux, ha, if_false, Bool.false_eq_true,
        List.head?_cons, Option.some.injEq] at hc
      subst hc
      exact Bool.not_eq_true _ ▸ ha

theorem collapseAux_chain (l : List Char) :
    ∀ b : Bool, List.Chain'
      (fun a c => ¬(pyIsSpace a = true ∧ pyIsSpace c = true))
      (collapseAux b l) := by
  induction l with
  | nil => intro b; simp [collapseAux]
  | cons a l ih =>
    intro b
    by_cases ha : pyIsSpace a = true
    · cases b with
      | true => simpa only [collapseAux, ha, if_true] using ih true
      | false =>
        simp only [collapseAux, ha, if_true, Bool.false_eq_true, if_false]
        rw [List.chain'_cons']
        refine ⟨fun y hy => ?_, ih true⟩
        have := collapseAux_true_head l y hy
        simp [this]
    · simp only [collapseAux, ha, Bool.false_eq_true, if_false]
      rw [List.chain'_cons']
      refine ⟨fun y hy => ?_, ih false⟩
      simp [ha]

theorem collapseAux_ne_nil (l : List Char) :
    ∀ b : Bool, (∃ x ∈ l, pyIsSpace x = false) → collapseAux b l ≠ [] := by
  induction l with
  | nil => intro b h; simp at h
  | cons a l ih =>
    intro b h
    by_cases ha : pyIsSpace a = true
    · obtain ⟨x, hx, hxs⟩ := h
      rcases List.mem_cons.mp hx with rfl | hx
      · exact absurd ha (by simp [hxs])
      · cases b with
        | true =>
          simp only [collapseAux, ha, if_true]
          exact ih true ⟨x, hx, hxs⟩
        | false =>
          simp [collapseAux, ha]
    · simp [collapseAux, ha]

theorem collapseAux_getLast (l : List Char) :
    ∀ (b : Bool) (c : Char),
      (∀ d, l.getLast? = some d → pyIsSpace d = false) →
      (collapseAux b l).getLast? = some c → pyIsSpace c = false := by
  induction l with
  | nil => intro b c _ hc; simp [collapseAux] at hc
  | cons a l ih =>
    intro b c hl hc
    cases l with
    | nil =>
      have ha : pyIsSpace a = false := hl a (List.getLast?_singleton a)
      simp only [collapseAux, ha, Bool.false_eq_true, if_false] at hc
      rw [List.getLast?_singleton] at hc
      cases hc
      exact ha
    | cons a' l' =>
      have hl' : ∀ d, (a' :: l').getLast? = some d → pyIsSpace d = false := by
        intro d hd
        apply hl
        rw [List.getLast?_cons_cons]
        exact hd
      have hlast : ∃ d, (a' :: l').getLast? = some d ∧ pyIsSpace d = false := by
        obtain ⟨d, hd⟩ := Option.isSome_iff_exists.mp
          (List.getLast?_isSome.mpr (List.cons_ne_nil a' l'))
        exact ⟨d, hd, hl' d hd⟩
      have hne : collapseAux true (a' :: l') ≠ [] := by
        apply collapseAux_ne_nil
        obtain ⟨d, hd, hds⟩ := hlast
        obtain ⟨hne', heq⟩ := List.mem_getLast?_eq_getLast (x := d) hd
        exact ⟨d, heq ▸ List.getLast_mem hne', hds⟩
      have hnef : collapseAux false (a' :: l') ≠ [] := by
        apply collapseAux_ne_nil
        obtain ⟨d, hd, hds⟩ := hlast
        obtain ⟨hne', heq⟩ := List.mem_getLast?_eq_getLast (x := d) hd
        exact ⟨d, heq ▸ List.getLast_mem hne', hds⟩
      by_cases ha : pyIsSpace a = true
      · cases b with
        | true =>
          rw [collapseAux_cons_true, if_pos ha] at hc
          exact ih true c hl' hc
        | false =>
          rw [collapseAux_cons_false, if_pos ha] at hc
          obtain ⟨y, t', heq⟩ := List.exists_cons_of_ne_nil hne
          rw [heq, List.getLast?_cons_cons, ← heq] at hc
          exact ih true c hl' hc
      · cases b with
        | true =>
          rw [collapseAux_cons_true, if_neg ha] at hc
          obtain ⟨y, t', heq⟩ := List.exists_cons_of_ne_nil hnef
          rw [heq, List.getLast?_cons_cons, ← heq] at hc
          exact ih false c hl' hc
        | false =>
          rw [collapseAux_cons_false, if_neg ha] at hc
          obtain ⟨y, t', heq⟩ := List.exists_cons_of_ne_nil hnef
          rw [heq, List.getLast?_cons_cons, ← heq] at hc
          exact ih false c hl' hc

theorem normalizeText_mem_space (l : List Char) (c : Char)
    (hc : c ∈ normalizeText l) (hsp : pyIsSpace c = true) : c = ' ' :=
  collapseAux_mem_space (pyStrip l) false c hc hsp

theorem normalizeText_chain (l : List Char) :
    List.Chain' (fun a c => ¬(pyIsSpace a = true ∧ pyIsSpace c = true))
      (normalizeText l) :=
  collapseAux_chain (pyStrip l) false

theorem normalizeText_head (l : List Char) (c : Char)
    (h : (normalizeText l).head? = some c) : pyIsSpace c = false := by
  rw [normalizeText] at h
  cases hps : pyStrip l with
  | nil => rw [hps] at h; simp [collapseAux] at h
  | cons a t =>
    have ha : pyIsSpace a = false :=
      pyStrip_head l a (by rw [hps]; rfl)
    rw [hps] at h
    simp only [collapseAux, ha, Bool.false_eq_true, if_false,
      List.head?_cons, Option.some.injEq] at h
    exact h ▸ ha

theorem normalizeText_getLast (l : List Char) (c : Char)
    (h : (normalizeText l).getLast? = some c) : pyIsSpace c = false :=
  collapseAux_getLast (pyStrip l) false c (fun d hd => pyStrip_getLast l d hd) h

/-! ## Bounds on the boundary search of `chunk_text` -/

theorem matchesHere_length (pat : Pat) :
    ∀ l : List Char, matchesHere pat l = true → pat.length ≤ l.length := by
  induction pat with
  | nil => intro l _; simp
  | cons p ps ih =>
    intro l h
    cases l with
    | nil => simp [matchesHere] at h
    | cons c cs =>
      simp only [matchesHere, Bool.and_eq_true] at h
      simpa using Nat.succ_le_succ (ih cs h.2)

theorem scanLastEnd_le (pat : Pat) :
    ∀ (fuel : Nat) (l : List Char) (i : Nat) (best : Option Nat),
      (∀ e, best = some e → e ≤ i + l.length) →
      ∀ e, scanLastEnd pat fuel l i best = some e → e ≤ i + l.length := by
  intro fuel
  induction fuel with
  | zero =>
    intro l i best hbest e he
    exact hbest e he
  | succ fuel ih =>
    intro l i best hbest e he
    cases l with
    | nil => exact hbest e he
    | cons c rest =>
      rw [scanLastEnd] at he
      by_cases hm : matchesHere pat (c :: rest) = true
      · rw [if_pos hm] at he
        have hlen := matchesHere_length pat (c :: rest) hm
        simp only [List.length_cons] at hlen
        have := ih (rest.drop (pat.length - 1)) (i + pat.length)
          (some (i + pat.length)) (fun e' he' => by cases he'; omega) e he
        rw [List.length_drop] at this
        simp only [List.length_cons]
        omega
      · rw [if_neg hm] at he
        have := ih rest (i + 1) best
          (fun e' he' => by have := hbest e' he'; simp only [List.length_cons] at this; omega)
          e he
        simp only [List.length_cons]
        omega

theorem lastMatchEnd_le (pat : Pat) (l : List Char) (e : Nat)
    (h : lastMatchEnd pat l = some e) : e ≤ l.length := by
  have := scanLastEnd_le pat l.length l 0 none (by intro e' he'; cases he') e h
  omega

theorem tryPatterns_le (region : List Char) (e : Nat)
    (h : tryPatterns region = some e) : e ≤ region.length := by
  rw [tryPatterns] at h
  cases h1 : lastMatchEnd patPeriodSpace region with
  | some e1 =>
    rw [h1] at h
    cases h
    exact lastMatchEnd_le _ _ _ h1
  | none =>
    rw [h1] at h
    cases h2 : lastMatchEnd patNewline region with
    | some e2 =>
      rw [h2] at h
      cases h
      exact lastMatchEnd_le _ _ _ h2
    | none =>
      rw [h2] at h
      exact lastMatchEnd_le _ _ _ h

theorem slice_length_le (t : List Char) (a b : Nat) :
    (slice t a b).length ≤ b - a := by
  rw [slice, List.length_drop, List.length_take]
  omega

theorem slice_infixOf (t : List Char) (a b : Nat) : slice t a b <:+: t :=
  ((List.drop_suffix a (t.take b)).isInfix).trans
    ((List.take_prefix b t).isInfix)

/-! ## Per-iteration facts about the chunking loop -/

theorem chunkEnd_le (t : List Char) (p : ChunkParams) (start : Nat) :
    chunkEnd t p start ≤ start + p.chunk_size + 50 := by
  rw [chunkEnd]
  by_cases hlt : start + p.chunk_size < t.length
  · rw [if_pos hlt]
    simp only
    split
    · rename_i me hm
      have hb := tryPatterns_le _ _ hm
      have hsl := slice_length_le t (max (start + p.chunk_size - 100) start)
        (min (start + p.chunk_size + 50) t.length)
      omega
    · omega
  · rw [if_neg hlt]
    omega

theorem chunkStep_yield (t : List Char) (p : ChunkParams) (start : Nat)
    (c : List Char) (h : (chunkStep t p start).1 = some c) :
    ∃ e, e ≤ start + p.chunk_size + 50 ∧ c = pyStrip (slice t start e) ∧
      p.min_chunk_size ≤ c.length := by
  simp only [chunkStep] at h
  refine ⟨chunkEnd t p start, chunkEnd_le t p start, ?_⟩
  by_cases hmin : p.min_chunk_size ≤
      (pyStrip (slice t start (chunkEnd t p start))).length
  · rw [if_pos hmin] at h
    cases h
    exact ⟨rfl, hmin⟩
  · rw [if_neg hmin] at h
    cases h

theorem chunkLoop_chunks (t : List Char) (p : ChunkParams) :
    ∀ (fuel start : Nat) (c : List Char),
      c ∈ (chunkLoop t p fuel start).1 →
      ∃ s', (chunkStep t p s').1 = some c := by
  intro fuel
  induction fuel with
  | zero => intro start c hc; simp [chunkLoop] at hc
  | succ fuel ih =>
    intro start c hc
    rw [chunkLoop] at hc
    by_cases hlt : start < t.length
    · rw [if_pos hlt] at hc
      simp only at hc
      cases hstep : (chunkStep t p start).1 with
      | some c0 =>
        rw [hstep] at hc
        rcases List.mem_cons.mp hc with rfl | hc
        · exact ⟨start, hstep⟩
        · exact ih _ c hc
      | none =>
        rw [hstep] at hc
        exact ih _ c hc
    · rw [if_neg hlt] at hc
      simp at hc

/-- Claim C10: every chunk yielded by `chunk_text` has length at least
`min_chunk_size` and at most `chunk_size + 50`, has no leading or trailing
whitespace, contains no newline, and contains no run of consecutive
whitespace characters (every whitespace character is a single `' '` with no
two adjacent), for every input text, parameter combination and fuel. -/
theorem chunk_text_good (text : List Char) (p : ChunkParams) (fuel : Nat)
    (c : List Char) (hc : c ∈ (chunk_text text p fuel).1) : ChunkGood p c := by
  rw [chunk_text] at hc
  have hmem : ∀ ch ∈ normalizeText text, pyIsSpace ch = true → ch = ' ' :=
    fun ch h1 h2 => normalizeText_mem_space text ch h1 h2
  have hchain := normalizeText_chain text
  by_cases hshort : (normalizeText text).length ≤ p.chunk_size
  · rw [if_pos hshort] at hc
    by_cases hmin : p.min_chunk_size ≤ (normalizeText text).length
    · rw [if_pos hmin] at hc
      rcases List.mem_singleton.mp hc with rfl
      refine ⟨hmin, by omega, ?_, ?_, ?_, hmem, hchain⟩
      · exact fun ch h => normalizeText_head text ch h
      · exact fun ch h => normalizeText_getLast text ch h
      · intro hn
        have := hmem '\n' hn (by decide)
        simp at this
    · rw [if_neg hmin] at hc
      simp at hc
  · rw [if_neg hshort] at hc
    obtain ⟨s', hs'⟩ := chunkLoop_chunks _ p fuel 0 c hc
    obtain ⟨e, he, rfl, hmin⟩ := chunkStep_yield _ p s' _ hs'
    have hinf : pyStrip (slice (normalizeText text) s' e) <:+: normalizeText text :=
      (pyStrip_infixOf _).trans (slice_infixOf _ s' e)
    have hsub : ∀ ch, ch ∈ pyStrip (slice (normalizeText text) s' e) →
        ch ∈ normalizeText text := fun ch h => hinf.sublist.subset h
    have hlen : (pyStrip (slice (normalizeText text) s' e)).length ≤
        p.chunk_size + 50 := by
      have h1 := pyStrip_length_le (slice (normalizeText text) s' e)
      have h2 := slice_length_le (normalizeText text) s' e
      omega
    refine ⟨hmin, hlen, ?_, ?_, ?_, ?_, hchain.infix hinf⟩
    · exact fun ch h => pyStrip_head _ ch h
    · exact fun ch h => pyStrip_getLast _ ch h
    · intro hn
      have := hmem '\n' (hsub '\n' hn) (by decide)
      simp at this
    · exact fun ch h hsp => hmem ch (hsub ch h) hsp

/-! ## Nontermination of the chunking loop (claim C6) -/

theorem chunkStep_tBad : ∀ s ∈ badStarts,
    chunkStep tBad pBad s = (none, nextBad s) := by decide

theorem nextBad_mem : ∀ s ∈ badStarts, nextBad s ∈ badStarts := by decide

theorem chunkLoop_succ_snd (t : List Char) (p : ChunkParams) (n s : Nat)
    (h : s < t.length) :
    (chunkLoop t p (n + 1) s).2 = (chunkLoop t p n (chunkStep t p s).2).2 := by
  rw [chunkLoop, if_pos h]

theorem chunkLoop_tBad_stuck :
    ∀ fuel, ∀ s ∈ badStarts, (chunkLoop tBad pBad fuel s).2 = false := by
  intro fuel
  induction fuel with
  | zero => decide
  | succ n ih =>
    intro s hs
    have hlt : s < tBad.length := by
      fin_cases hs <;> decide
    rw [chunkLoop_succ_snd tBad pBad n s hlt, chunkStep_tBad s hs]
    exact ih (nextBad s) (nextBad_mem s hs)

/-- Witness for the chunk invariant: the one-chunk document `textW` yields a
chunk and the invariant holds on it. -/
theorem chunk_text_good_witness :
    normalizeText textW.toList ∈ (chunk_text textW.toList defaultParams 1).1 ∧
      ChunkGood defaultParams (normalizeText textW.toList) :=
  ⟨by decide, chunk_text_good textW.toList defaultParams 1 _ (by decide)⟩

/-- Claim C6 is wrong about the code: on the 100-character text `'a' * 100`
(no sentence boundaries) with `chunk_size = 10, overlap = 50,
min_chunk_size = 50`, the `while` loop of `chunk_text` never terminates — for
every iteration budget the loop is still running (the guard
`if start <= 0: start = end` fires only at `start ≤ 0`, but the window start
cycles through 10, 20, 30, 40, 50, 10, … without ever reaching 0 or the end
of the text, so the start does NOT strictly increase on every iteration). -/
theorem chunk_text_nonterminating :
    ∀ fuel, (chunk_text tBad pBad fuel).2 = false := by
  intro fuel
  have hnorm : normalizeText tBad = tBad := by decide
  rw [chunk_text, hnorm]
  rw [if_neg (by decide : ¬(tBad.length ≤ pBad.chunk_size))]
  exact chunkLoop_tBad_stuck fuel 0 (by decide)

/-! ## Lemmas about `retrieve` (claim C2) -/

theorem lastK_sublist (l : List Nat) (k : Nat) : (lastK l k).Sublist l := by
  rw [lastK]
  split
  · exact List.Sublist.refl l
  · exact List.drop_sublist _ l

theorem topIndices_sorted (xs : List ℚ) (k : Nat) :
    List.Pairwise (fun i j => xs.getD j 0 ≤ xs.getD i 0) (topIndices xs k) := by
  have hs : List.Pairwise (simLE xs) (argsortAsc xs) :=
    List.sorted_insertionSort (simLE xs) (List.range xs.length)
  have hp := List.Pairwise.sublist (lastK_sublist (argsortAsc xs) k) hs
  exact List.pairwise_reverse.mpr hp

theorem topIndices_mem (xs : List ℚ) (k i : Nat) (h : i ∈ topIndices xs k) :
    i < xs.length := by
  rw [topIndices, List.mem_reverse] at h
  have h2 : i ∈ argsortAsc xs := (lastK_sublist (argsortAsc xs) k).subset h
  have h3 : i ∈ List.range xs.length :=
    (List.perm_insertionSort (simLE xs) (List.range xs.length)).mem_iff.mp h2
  exact List.mem_range.mp h3

theorem topIndices_nodup (xs : List ℚ) (k : Nat) : (topIndices xs k).Nodup := by
  rw [topIndices, List.nodup_reverse]
  refine List.Nodup.sublist (lastK_sublist (argsortAsc xs) k) ?_
  exact (List.perm_insertionSort (simLE xs) (List.range xs.length)).nodup_iff.mpr
    (List.nodup_range xs.length)

theorem topIndices_length_le (xs : List ℚ) (k : Nat) (hk : 1 ≤ k) :
    (topIndices xs k).length ≤ k := by
  rw [topIndices, List.length_reverse, lastK, if_neg (by omega : ¬k = 0),
    List.length_drop]
  omega

theorem retrieveHit_some (docs : List DocRec) (sims : List ℚ) (idx : Nat)
    (p : DocRec × ℚ) (h : retrieveHit docs sims idx = some p) :
    docs[idx]? = some p.1 ∧ sims[idx]? = some p.2 ∧ 0 < p.2 := by
  cases hd : docs[idx]? with
  | none => simp [retrieveHit, hd] at h
  | some d =>
    cases hs : sims[idx]? with
    | none => simp [retrieveHit, hd, hs] at h
    | some s =>
      simp only [retrieveHit, hd, hs] at h
      by_cases h0 : (0 : ℚ) < s
      · rw [if_pos h0] at h
        cases h
        exact ⟨rfl, rfl, h0⟩
      · rw [if_neg h0] at h
        cases h

theorem getD_of_getElem? (xs : List ℚ) (i : Nat) (s : ℚ)
    (h : xs[i]? = some s) : xs.getD i 0 = s := by
  rw [List.getD_eq_getElem?_getD, h, Option.getD_some]

theorem retrieve_sorted (e : Engine) (q : String) (k : Nat) :
    List.Pairwise (fun p p' : DocRec × ℚ => p'.2 ≤ p.2) (retrieve e q k) := by
  rw [retrieve]
  apply List.pairwise_filterMap.mpr
  refine (topIndices_sorted (e.sims q) k).imp ?_
  intro i j hij p hp p' hp'
  obtain ⟨_, hsi, _⟩ := retrieveHit_some _ _ _ _ hp
  obtain ⟨_, hsj, _⟩ := retrieveHit_some _ _ _ _ hp'
  rw [← getD_of_getElem? _ _ _ hsi, ← getD_of_getElem? _ _ _ hsj]
  exact hij

theorem retrieve_length_le (e : Engine) (q : String) (k : Nat) (hk : 1 ≤ k) :
    (retrieve e q k).length ≤ k := by
  rw [retrieve]
  exact le_trans (List.length_filterMap_le _ _)
    (topIndices_length_le (e.sims q) k hk)

theorem retrieve_pos (e : Engine) (q : String) (k : Nat) :
    ∀ p ∈ retrieve e q k, 0 < p.2 := by
  intro p hp
  rw [retrieve] at hp
  obtain ⟨i, _, hi⟩ := List.mem_filterMap.mp hp
  exact (retrieveHit_some _ _ _ _ hi).2.2

theorem length_filterMap_eq_countP {α β : Type} (f : α → Option β)
    (l : List α) :
    (l.filterMap f).length = l.countP (fun a => (f a).isSome) := by
  induction l with
  | nil => rfl
  | cons a l ih =>
    rw [List.filterMap_cons, List.countP_cons]
    cases hf : f a with
    | none => simp [hf, ih]
    | some b => simp [hf, ih]

theorem nodup_subset_length {α : Type} [DecidableEq α] (l₁ l₂ : List α)
    (h1 : l₁.Nodup) (h2 : l₁ ⊆ l₂) : l₁.length ≤ l₂.length :=
  calc l₁.length = l₁.toFinset.card := (List.toFinset_card_of_nodup h1).symm
    _ ≤ l₂.toFinset.card := Finset.card_le_card
        (fun x hx => List.mem_toFinset.mpr (h2 (List.mem_toFinset.mp hx)))
    _ ≤ l₂.length := List.toFinset_card_le l₂

theorem countP_range_getD (xs : List ℚ) (pq : ℚ → Bool) :
    (List.range xs.length).countP (fun i => pq (xs.getD i 0)) =
      xs.countP pq := by
  induction xs with
  | nil => rfl
  | cons x xs ih =>
    rw [List.length_cons, List.range_succ_eq_map, List.countP_cons,
      List.countP_map, List.countP_cons]
    have hcomp : ((fun i => pq ((x :: xs).getD i 0)) ∘ Nat.succ) =
        fun i => pq (xs.getD i 0) := by
      funext i
      simp [List.getD_cons_succ]
    rw [hcomp, ih]
    simp [List.getD_cons_zero]

theorem retrieve_length_le_posCount (e : Engine) (q : String) (k : Nat) :
    (retrieve e q k).length ≤ (e.sims q).countP (fun s => decide (0 < s)) := by
  rw [retrieve, length_filterMap_eq_countP, List.countP_eq_length_filter]
  have hsub : (topIndices (e.sims q) k).filter
      (fun i => (retrieveHit e.documents (e.sims q) i).isSome) ⊆
      (List.range (e.sims q).length).filter
        (fun i => decide (0 < (e.sims q).getD i 0)) := by
    intro i hi
    obtain ⟨him, hpred⟩ := List.mem_filter.mp hi
    obtain ⟨p, hp⟩ := Option.isSome_iff_exists.mp hpred
    obtain ⟨_, hsi, hpos⟩ := retrieveHit_some _ _ _ _ hp
    refine List.mem_filter.mpr ⟨List.mem_range.mpr (topIndices_mem _ k i him), ?_⟩
    rw [getD_of_getElem? _ _ _ hsi]
    exact decide_eq_true hpos
  have hnd : ((topIndices (e.sims q) k).filter
      (fun i => (retrieveHit e.documents (e.sims q) i).isSome)).Nodup :=
    List.Nodup.filter _ (topIndices_nodup (e.sims q) k)
  calc ((topIndices (e.sims q) k).filter _).length
      ≤ ((List.range (e.sims q).length).filter
          (fun i => decide (0 < (e.sims q).getD i 0))).length :=
        nodup_subset_length _ _ hnd hsub
    _ = (List.range (e.sims q).length).countP
          (fun i => decide (0 < (e.sims q).getD i 0)) :=
        (List.countP_eq_length_filter _ _).symm
    _ = (e.sims q).countP (fun s => decide (0 < s)) :=
        countP_range_getD (e.sims q) (fun s => decide (0 < s))

theorem retrieve_empty_of_no_pos (e : Engine) (q : String) (k : Nat)
    (h : (e.sims q).countP (fun s => decide (0 < s)) = 0) :
    retrieve e q k = [] := by
  rw [retrieve]
  apply List.filterMap_eq_nil_iff.mpr
  intro i _
  cases hr : retrieveHit e.documents (e.sims q) i with
  | none => rfl
  | some p =>
    obtain ⟨_, hsi, hpos⟩ := retrieveHit_some _ _ _ _ hr
    have hmem : p.2 ∈ e.sims q := by
      have := List.getElem?_eq_some_iff.mp hsi
      obtain ⟨hlt, heq⟩ := this
      exact heq ▸ List.getElem_mem hlt
    have := List.countP_eq_zero.mp h p.2 hmem
    simp [hpos] at this

/-- Claim C2: for every query and `top_k ≥ 1` (with the loaded-index
invariant that there is one similarity score per document), `retrieve`
returns pairs sorted by non-increasing score, at most `top_k` of them, all
with strictly positive score; it returns fewer than `top_k` pairs when fewer
chunks have positive similarity and no pairs when none has. -/
theorem retrieve_spec (e : Engine) (q : String) (top_k : Nat)
    (hk : 1 ≤ top_k) (hlen : (e.sims q).length = e.documents.length) :
    RetrieveSpec e q top_k := by
  refine ⟨retrieve_sorted e q top_k, retrieve_length_le e q top_k hk,
    retrieve_pos e q top_k, ?_, retrieve_empty_of_no_pos e q top_k⟩
  intro hpos
  exact lt_of_le_of_lt (retrieve_length_le_posCount e q top_k) hpos

/-- Witness for C2 on a concrete three-document engine with two
positive-similarity chunks and `top_k = 2`. -/
theorem retrieve_spec_witness :
    1 ≤ 2 ∧ (eW.sims "risk").length = eW.documents.length ∧
      RetrieveSpec eW "risk" 2 :=
  ⟨by decide, by decide, retrieve_spec eW "risk" 2 (by decide) (by decide)⟩

/-! ## The confidence gate and the citation bug (claims C1, C3, C4) -/

theorem buildCitations_cons (d : DocRec) (s : ℚ) (rest : List (DocRec × ℚ)) :
    buildCitations ((d, s) :: rest) = Except.error "source: Field required" :=
  rfl

theorem synthesize_nil (setEnum : List String → List String) (e : Engine)
    (q : String) (h : retrieve e q TOP_K = []) :
    synthesize setEnum e q =
      Except.ok ⟨"", 0, [], true, some "No relevant information found."⟩ := by
  simp only [synthesize, h]

theorem synthesize_low (setEnum : List String → List String) (e : Engine)
    (q : String) (d : DocRec) (s : ℚ) (rest : List (DocRec × ℚ))
    (h : retrieve e q TOP_K = (d, s) :: rest) (hs : s < CONFIDENCE_THRESHOLD) :
    synthesize setEnum e q =
      Except.ok ⟨"", min (s * 2) 1, [], true,
        some ("Confidence too low (" ++ fmt2 (min (s * 2) 1) ++ ").")⟩ := by
  simp only [synthesize, h]
  rw [if_pos hs]

theorem synthesize_high (setEnum : List String → List String) (e : Engine)
    (q : String) (d : DocRec) (s : ℚ) (rest : List (DocRec × ℚ))
    (h : retrieve e q TOP_K = (d, s) :: rest)
    (hs : ¬s < CONFIDENCE_THRESHOLD) :
    synthesize setEnum e q = Except.error "source: Field required" := by
  simp only [synthesize, h]
  rw [if_neg hs]
  simp only [buildCitations_cons]

/-- Claim C1: `synthesize` abstains exactly when there are no retrieval
results or the top raw score is below `CONFIDENCE_THRESHOLD` (0.15); any
abstaining response carries confidence `min(top_score × 2, 1)` when there was
at least one result, and `0` when there was none. -/
theorem confidence_gate (setEnum : List String → List String) (e : Engine)
    (q : String) :
    (abstains setEnum e q ↔
      retrieve e q TOP_K = [] ∨
        topScore (retrieve e q TOP_K) < CONFIDENCE_THRESHOLD)
    ∧ ∀ r, synthesize setEnum e q = Except.ok r → r.abstained = true →
        r.confidence = if retrieve e q TOP_K = [] then 0
          else min (topScore (retrieve e q TOP_K) * 2) 1 := by
  rcases hres : retrieve e q TOP_K with _ | ⟨⟨d, s⟩, rest⟩
  · have hsyn := synthesize_nil setEnum e q hres
    constructor
    · exact ⟨fun _ => Or.inl rfl, fun _ => ⟨_, hsyn, rfl⟩⟩
    · intro r hr _
      rw [hsyn] at hr
      cases hr
      rw [if_pos rfl]
  · by_cases hs : s < CONFIDENCE_THRESHOLD
    · have hsyn := synthesize_low setEnum e q d s rest hres hs
      constructor
      · exact ⟨fun _ => Or.inr hs, fun _ => ⟨_, hsyn, rfl⟩⟩
      · intro r hr _
        rw [hsyn] at hr
        cases hr
        rw [if_neg (by simp)]
        rfl
    · have hsyn := synthesize_high setEnum e q d s rest hres hs
      constructor
      · constructor
        · intro habs
          obtain ⟨r, hr, _⟩ := habs
          rw [hsyn] at hr
          cases hr
        · intro hor
          rcases hor with hnil | hlow
          · simp at hnil
          · exact absurd hlow hs
      · intro r hr _
        rw [hsyn] at hr
        cases hr

theorem retrieve_eEmpty (q : String) : retrieve eEmpty q TOP_K = [] := rfl

theorem retrieve_eLow (q : String) :
    retrieve eLow q TOP_K = [(docA, 1/10)] := by
  have ht : topIndices (eLow.sims q) TOP_K = [0] := rfl
  have hh : retrieveHit eLow.documents (eLow.sims q) 0 = some (docA, 1/10) := by
    have hd : eLow.documents[0]? = some docA := rfl
    have hv : (eLow.sims q)[0]? = some (1/10) := rfl
    simp only [retrieveHit, hd, hv]
    rw [if_pos (by norm_num : (0 : ℚ) < 1/10)]
  rw [retrieve]
  rw [ht, List.filterMap_cons, hh, List.filterMap_nil]

theorem retrieve_eAns (q : String) :
    retrieve eAns q TOP_K = [(docA, 1/2)] := by
  have ht : topIndices (eAns.sims q) TOP_K = [0] := rfl
  have hh : retrieveHit eAns.documents (eAns.sims q) 0 = some (docA, 1/2) := by
    have hd : eAns.documents[0]? = some docA := rfl
    have hv : (eAns.sims q)[0]? = some (1/2) := rfl
    simp only [retrieveHit, hd, hv]
    rw [if_pos (by norm_num : (0 : ℚ) < 1/2)]
  rw [retrieve]
  rw [ht, List.filterMap_cons, hh, List.filterMap_nil]

theorem synthesize_eLow (q : String) :
    synthesize pySetEnumDedup eLow q = Except.ok rLow :=
  synthesize_low pySetEnumDedup eLow q docA (1/10) [] (retrieve_eLow q)
    (by rw [CONFIDENCE_THRESHOLD]; norm_num)

theorem synthesize_eEmpty (q : String) :
    synthesize pySetEnumDedup eEmpty q = Except.ok rEmpty :=
  synthesize_nil pySetEnumDedup eEmpty q (retrieve_eEmpty q)

theorem synthesize_eAns (q : String) :
    synthesize pySetEnumDedup eAns q = Except.error "source: Field required" :=
  synthesize_high pySetEnumDedup eAns q docA (1/2) [] (retrieve_eAns q)
    (by rw [CONFIDENCE_THRESHOLD]; norm_num)

/-- Witness for C1: on the low-confidence engine (top score 0.1 < 0.15),
`synthesize` abstains with confidence `0.1 × 2 = 0.2`, as the theorem's
confidence equation states. -/
theorem confidence_gate_witness :
    synthesize pySetEnumDedup eLow "margins" = Except.ok rLow ∧
      rLow.abstained = true ∧
      rLow.confidence = (if retrieve eLow "margins" TOP_K = [] then 0
        else min (topScore (retrieve eLow "margins" TOP_K) * 2) 1) :=
  ⟨synthesize_eLow "margins", rfl,
    (confidence_gate pySetEnumDedup eLow "margins").2 rLow
      (synthesize_eLow "margins") rfl⟩

/-- Claim C3 is wrong about the code: the abstention paths do return records
satisfying the contract (message present, confidence in [0, 1], no
citations), but on any query that passes the confidence gate `synthesize`
raises pydantic's `ValidationError` while constructing the first `Citation`
(rag.py passes `source_file=` and a string `chunk_id` to a schema that
requires `source` and an integer `chunk_id`), so no record of the contract's
shape is returned at all. -/
theorem synthesize_contract :
    (synthesize pySetEnumDedup eLow "margins" = Except.ok rLow ∧
      rLow.abstained = true ∧ rLow.message.isSome = true ∧
      rLow.citations = [] ∧ 0 ≤ rLow.confidence ∧ rLow.confidence ≤ 1)
    ∧ (synthesize pySetEnumDedup eEmpty "margins" = Except.ok rEmpty ∧
      rEmpty.abstained = true ∧ rEmpty.message.isSome = true ∧
      rEmpty.citations = [] ∧ 0 ≤ rEmpty.confidence ∧ rEmpty.confidence ≤ 1)
    ∧ synthesize pySetEnumDedup eAns "margins" =
        Except.error "source: Field required" :=
  ⟨⟨synthesize_eLow "margins", rfl, rfl, rfl,
      le_min (by norm_num) (by norm_num), min_le_right _ _⟩,
    ⟨synthesize_eEmpty "margins", rfl, rfl, rfl, le_refl 0, zero_le_one⟩,
    synthesize_eAns "margins"⟩

/-- Claim C4 is wrong about the code: constructing the `Citation` objects of
an ANSWER outcome never succeeds against the declared schema.  The keyword
arguments `rag.py` passes carry no `source` value (pydantic reports the
required field missing), and even if `source` were supplied, the string
`chunk_id` (`"filing.txt_0"`) does not coerce to the declared integer field;
consequently `synthesize` raises instead of answering. -/
theorem citation_construction_fails :
    validateCitationFields none docA.chunk_id (excerpt docA.text)
        (pyRound4 (1/2)) = Except.error "source: Field required"
    ∧ validateCitationFields (some docA.source_file) docA.chunk_id
        (excerpt docA.text) (pyRound4 (1/2)) =
        Except.error "chunk_id: value is not a valid integer"
    ∧ synthesize pySetEnumDedup eAns "revenue" =
        Except.error "source: Field required" :=
  ⟨rfl, rfl, synthesize_eAns "revenue"⟩

/-! ## The synthesized answer and the source-list order (claim C9) -/

theorem pySetValid_dedup : pySetValid pySetEnumDedup :=
  fun l => ⟨List.nodup_dedup l, fun _ => List.mem_dedup⟩

/-- Claim C9 as stated is wrong about the code: `_generate_answer` builds its
source list with `list(set(...))`, whose order is whatever Python's
hash-dependent set iteration yields, not first-appearance order.  Witnessed
with the valid set enumeration `List.dedup` (which keeps last occurrences) on
citations drawn from sources `x.txt, y.txt, x.txt`: the produced answer lists
`y.txt, x.txt`, not the claimed first-appearance order `x.txt, y.txt`. -/
theorem generate_answer_order_counterexample :
    pySetValid pySetEnumDedup ∧ chosenSegments q9 ctx9 ≠ [] ∧
      generate_answer pySetEnumDedup q9 ctx9 cits9 ≠
        claimedAnswerC9 q9 ctx9 cits9 :=
  ⟨pySetValid_dedup, by decide, by decide⟩

/-- Claim C9, amended: for every valid set enumeration, whenever at least one
segment overlaps the query the answer is the chosen segments joined with
". " plus a trailing period, followed by a bracketed list holding each
distinct retrieved source id exactly once — in the enumeration's
(unspecified) order rather than first-appearance order. -/
theorem generate_answer_amended (setEnum : List String → List String)
    (h : pySetValid setEnum) (q : String) (ctx : List String)
    (cits : List RagCitation) (hne : chosenSegments q ctx ≠ []) :
    AmendedC9 setEnum q ctx cits := by
  obtain ⟨t, tops, heq⟩ := List.exists_cons_of_ne_nil hne
  refine ⟨?_, (h _).1, fun x => Iff.trans ((h _).2 x) List.mem_map⟩
  rw [generate_answer, heq]

/-- Witness for the amended C9 on the concrete inputs. -/
theorem generate_answer_amended_witness :
    pySetValid pySetEnumDedup ∧ chosenSegments q9 ctx9 ≠ [] ∧
      AmendedC9 pySetEnumDedup q9 ctx9 cits9 :=
  ⟨pySetValid_dedup, by decide,
    generate_answer_amended pySetEnumDedup pySetValid_dedup q9 ctx9 cits9
      (by decide)⟩

/-! ## Build/load round trip and failure handling (claims C5, C7, C8) -/

/-- Claim C5: whenever the build succeeds and writes artifacts, loading those
artifacts reproduces exactly the build-time chunk list (same order, row `i`
of the matrix against chunk `i`) and exactly the fitted vocabulary, which the
loader passes through rather than re-deriving. -/
theorem index_roundtrip (fit : List String → List (String × Nat) × List (List ℚ))
    (fuel cs ov : Nat) (corpus : List (String × String)) (stats : IngestStats)
    (arts : Artifacts)
    (h : ingest_filings fit fuel corpus cs ov = (stats, some arts)) :
    RoundtripOk fit arts := by
  rw [ingest_filings] at h
  by_cases hemp : ((corpus.map fun doc =>
      chunksOfDoc doc.1 doc.2 cs ov fuel).flatten).isEmpty
  · rw [if_pos hemp] at h
    simp at h
  · rw [if_neg hemp] at h
    have h2 := congrArg Prod.snd h
    simp only [Option.some.injEq] at h2
    subst h2
    exact ⟨rfl, rfl, rfl, fun i => List.getElem?_map docOfChunk _ i⟩

/-- Witness for C5 on a one-document corpus. -/
theorem index_roundtrip_witness :
    ingest_filings fitW 5 corpusW 512 64 =
      (⟨"success", 1, 1, some 1⟩, some artsW) ∧ RoundtripOk fitW artsW :=
  ⟨by decide, index_roundtrip fitW 5 512 64 corpusW ⟨"success", 1, 1, some 1⟩ artsW (by decide)⟩

/-- Claim C7: when the corpus has no documents, or every document yields zero
chunks, the build returns the failure stats dict and writes none of the three
artifacts. -/
theorem ingest_empty_no_artifacts
    (fit : List String → List (String × Nat) × List (List ℚ))
    (fuel cs ov : Nat) (corpus : List (String × String))
    (h : corpus = [] ∨ ∀ doc ∈ corpus, chunksOfDoc doc.1 doc.2 cs ov fuel = []) :
    ingest_filings fit fuel corpus cs ov = (⟨"error", 0, 0, none⟩, none) := by
  have hnil : (corpus.map fun doc =>
      chunksOfDoc doc.1 doc.2 cs ov fuel).flatten = [] := by
    rcases h with rfl | hall
    · rfl
    · apply List.flatten_eq_nil_iff.mpr
      intro l hl
      obtain ⟨doc, hdoc, rfl⟩ := List.mem_map.mp hl
      exact hall doc hdoc
  rw [ingest_filings, hnil]
  rfl

/-- Witness for C7: the empty corpus. -/
theorem ingest_empty_no_artifacts_witness :
    ingest_filings fitW 5 [] 512 64 = (⟨"error", 0, 0, none⟩, none) :=
  ingest_empty_no_artifacts fitW 5 512 64 [] (Or.inl rfl)

/-- Claim C8: if any of the three artifacts is missing, loading fails with
the index-not-found error (never a ready engine over an empty default); if
all three are present, loading succeeds and the engine reports ready. -/
theorem load_index_contract (st : IndexStore) :
    ((st.chunks = none ∨ st.matrix = none ∨ st.vocabulary = none) →
      load_index st = Except.error "Index not found. Run ingestion first.")
    ∧ (∀ c m v, st.chunks = some c → st.matrix = some m →
        st.vocabulary = some v →
        ∃ en, load_index st = Except.ok en ∧ is_ready en = true) := by
  rcases st with ⟨oc, om, ov⟩
  constructor
  · intro h
    cases oc <;> cases om <;> cases ov <;>
      first
      | rfl
      | (rcases h with h | h | h <;> simp at h)
  · intro c m v hc hm hv
    simp only at hc hm hv
    subst hc
    subst hm
    subst hv
    exact ⟨_, rfl, rfl⟩

/-- Witness for C8: the empty store fails, the full store loads ready. -/
theorem load_index_contract_witness :
    load_index emptyStore =
        Except.error "Index not found. Run ingestion first." ∧
      ∃ en, load_index fullStore = Except.ok en ∧ is_ready en = true :=
  ⟨(load_index_contract emptyStore).1 (Or.inl rfl),
    (load_index_contract fullStore).2 artsW.chunks artsW.matrix
      artsW.vocabulary rfl rfl rfl⟩

end FinFilingsRag
